import Mathlib

/-!
Verification development for the aircraft defect viewer frontend.

The definitions below are a shallow embedding of the windowed-loading core
of the repository: the infinite/virtual scrolling controller
(frontend/src/components/VirtualizedDefectTable.jsx), the query hooks
(frontend/src/hooks/useDefects.js and the draft variant of the same hook),
the Supabase page fetcher (the fetchDefectsSupabase / searchAircraftSupabase
service embedded in the repository), the debounce helpers
(useDebounce hook and the inline debounce in DefectFilters.jsx), the date
formatting helpers (frontend/src/utils/date.js, DefectRow.jsx, and the
draft DefectTable row), and the row-expansion bookkeeping.

Asynchronous callback-driven code is embedded as explicit event-step state
machines (the UI is single threaded; "concurrency" is overlapping async
completions, so an event interleaving model is faithful).  External host or
library primitives (JS Date parsing, the TanStack Query keyed cache, the
Postgres ilike operator) are modelled explicitly where noted.
-/

namespace DefectViewer

/-- DefectReport rows as delivered by the data collaborator
(fields in the snake_case shape used throughout the frontend). -/
structure DefectReport where
  id : String
  aircraft_registration : String
  defect_type : String
  description : String
  severity : String
  reported_at : String
deriving DecidableEq

/-- FilterState: the active exact-match filter fields, as held in
App.jsx state (aircraft_registration and severity; empty string means
"no filter", matching JS truthiness checks in the fetchers). -/
structure FilterState where
  aircraft_registration : String
  severity : String
deriving DecidableEq

/-- System-wide page size (frontend/src/config.js PAGINATION_DEFAULTS.PAGE_SIZE
and the literal 50 in useDefects.js). -/
def PAGE_SIZE : Nat := 50

/-- Prefetch threshold: `const threshold = 10` in
VirtualizedDefectTable.jsx onItemsRendered. -/
def PREFETCH_THRESHOLD : Nat := 10

/-- Collapsed row height: VIRTUALIZED_TABLE_CONFIG.ROW_HEIGHT = 40
in frontend/src/config.js. -/
def ROW_HEIGHT : Nat := 40

/-- Expanded-row extra height: the literal 140 added in
VirtualizedDefectTable.jsx getItemSize. -/
def EXPANDED_DELTA : Nat := 140

/-- Debounce quiet period: the literal 300 (ms) used by both debounce
implementations in the repository. -/
def DEBOUNCE_DELAY : Nat := 300

/-! ## Infinite/virtual controller

VirtualizedDefectTable.jsx onItemsRendered:

  const shouldLoadMore =
    hasNextPage && !isFetchingNextPage && visibleStopIndex >= defects.length - threshold;
  if (shouldLoadMore) fetchNextPage();

`defects.length - threshold` is JS number arithmetic (may be negative), so
the comparison is embedded over `Int`.  The fetch lifecycle (flag set while
a next-page fetch is in flight, cleared on completion; rows appended and
`hasNextPage` updated on success; error surfaced and nothing appended on
failure) is the useInfiniteQuery state consumed by the component, embedded
as an event-step machine.  The `outstanding` field counts in-flight
next-page fetches so that the single-in-flight discipline is observable. -/

/-- The guard of onItemsRendered in VirtualizedDefectTable.jsx. -/
def shouldLoadMore (hasNextPage isFetchingNextPage : Bool)
    (visibleStopIndex windowLength : Nat) : Bool :=
  hasNextPage && !isFetchingNextPage &&
    decide ((visibleStopIndex : Int) ≥ (windowLength : Int) - (PREFETCH_THRESHOLD : Int))

/-- State of the infinite/virtual controller: the accumulated window of
rows, the has-more flag, the in-flight flag, the next page number, the
count of outstanding next-page fetches, and the surfaced error (if any). -/
structure InfiniteState where
  window : List DefectReport
  hasNextPage : Bool
  isFetchingNextPage : Bool
  nextPage : Nat
  outstanding : Nat
  error : Option String
deriving DecidableEq

/-- Events delivered to the controller on the single-threaded UI loop:
a visible-range notification from the renderer (onItemsRendered), a
successful next-page fetch completion, or a failed one. -/
inductive InfiniteEvent where
  | visible (lastVisibleIndex : Nat)
  | succeed (rows : List DefectReport) (hasMore : Bool)
  | fail (msg : String)
deriving DecidableEq

/-- One controller step.  Returns the new state and the number of
next-page fetches issued by this event (0 or 1).  A visible-range
notification issues a fetch exactly when the onItemsRendered guard holds;
completions append/surface and clear the in-flight flag. -/
def stepInfinite (s : InfiniteState) : InfiniteEvent → InfiniteState × Nat
  | .visible i =>
      if shouldLoadMore s.hasNextPage s.isFetchingNextPage i s.window.length then
        ({ s with isFetchingNextPage := true, outstanding := s.outstanding + 1 }, 1)
      else
        (s, 0)
  | .succeed rows hasMore =>
      if s.isFetchingNextPage then
        ({ window := s.window ++ rows
           hasNextPage := hasMore
           isFetchingNextPage := false
           nextPage := s.nextPage + 1
           outstanding := s.outstanding - 1
           error := none }, 0)
      else
        (s, 0)
  | .fail msg =>
      if s.isFetchingNextPage then
        ({ s with isFetchingNextPage := false
                  outstanding := s.outstanding - 1
                  error := some msg }, 0)
      else
        (s, 0)

/-- Controller invariant: the outstanding-fetch count is exactly the
in-flight flag (so it is at most one). -/
def InfInv (s : InfiniteState) : Prop :=
  s.outstanding = (if s.isFetchingNextPage then 1 else 0)

/-- All states visited while running a list of events from a start state. -/
def traceStates (s : InfiniteState) : List InfiniteEvent → List InfiniteState
  | [] => [s]
  | e :: es => s :: traceStates (stepInfinite s e).1 es

lemma infInv_step (s : InfiniteState) (e : InfiniteEvent) (h : InfInv s) :
    InfInv (stepInfinite s e).1 := by
  cases e with
  | visible i =>
      simp only [stepInfinite]
      split
      · next hg =>
          have hf : s.isFetchingNextPage = false := by
            simp only [shouldLoadMore, Bool.and_eq_true, Bool.not_eq_true'] at hg
            exact hg.1.2
          simp only [InfInv] at h ⊢
          rw [hf] at h
          simp only [Bool.false_eq_true, if_false] at h
          simp [h]
      · exact h
  | succeed rows hasMore =>
      simp only [stepInfinite]
      split
      · next hf =>
          simp only [InfInv] at h ⊢
          rw [hf] at h
          simp only [if_true] at h
          simp [h]
      · exact h
  | fail msg =>
      simp only [stepInfinite]
      split
      · next hf =>
          simp only [InfInv] at h ⊢
          rw [hf] at h
          simp only [if_true] at h
          simp [h]
      · exact h

lemma infInv_outstanding_le_one (s : InfiniteState) (h : InfInv s) :
    s.outstanding ≤ 1 := by
  unfold InfInv at h
  rw [h]
  split <;> simp

lemma traceStates_outstanding (s : InfiniteState) (es : List InfiniteEvent)
    (h : InfInv s) : ∀ u ∈ traceStates s es, u.outstanding ≤ 1 := by
  induction es generalizing s with
  | nil =>
      intro u hu
      simp only [traceStates, List.mem_singleton] at hu
      exact hu ▸ infInv_outstanding_le_one s h
  | cons e es ih =>
      intro u hu
      simp only [traceStates, List.mem_cons] at hu
      rcases hu with rfl | hu
      · exact infInv_outstanding_le_one u h
      · exact ih (stepInfinite s e).1 (infInv_step s e h) u hu

/-- C1: a next-page fetch is triggered on a visible-range notification if
and only if hasMore is true, no next-page fetch is outstanding, and the
last visible index is at least the window length minus 10; along every
event trace started with the single-in-flight invariant, at most one
next-page fetch is outstanding at any time; and a visible-range trigger
arriving while a fetch is outstanding is a no-op. -/
theorem next_page_fetch_discipline :
    (∀ (s : InfiniteState) (i : Nat),
        (stepInfinite s (.visible i)).2 = 1 ↔
          s.hasNextPage = true ∧ s.isFetchingNextPage = false ∧
            (i : Int) ≥ (s.window.length : Int) - (PREFETCH_THRESHOLD : Int))
    ∧ (∀ (s : InfiniteState) (es : List InfiniteEvent) (u : InfiniteState),
        InfInv s → u ∈ traceStates s es → u.outstanding ≤ 1)
    ∧ (∀ (s : InfiniteState) (i : Nat),
        s.isFetchingNextPage = true → stepInfinite s (.visible i) = (s, 0)) := by
  refine ⟨?_, ?_, ?_⟩
  · intro s i
    constructor
    · intro h
      by_cases hg : shouldLoadMore s.hasNextPage s.isFetchingNextPage i s.window.length = true
      · simp only [shouldLoadMore, Bool.and_eq_true, Bool.not_eq_true',
          decide_eq_true_eq] at hg
        exact ⟨hg.1.1, hg.1.2, hg.2⟩
      · simp [stepInfinite, hg] at h
    · rintro ⟨h1, h2, h3⟩
      have hg : shouldLoadMore s.hasNextPage s.isFetchingNextPage i s.window.length = true := by
        simp [shouldLoadMore, h1, h2, h3]
      simp [stepInfinite, hg]
  · intro s es u h hu
    exact traceStates_outstanding s es h u hu
  · intro s i h
    have hg : shouldLoadMore s.hasNextPage s.isFetchingNextPage i s.window.length = false := by
      simp [shouldLoadMore, h]
    simp [stepInfinite, hg]

/-- Demo start state for the controller: empty window, more pages
available, nothing in flight. -/
def infDemo : InfiniteState :=
  { window := [], hasNextPage := true, isFetchingNextPage := false
    nextPage := 2, outstanding := 0, error := none }

/-- State after the first visible-range trigger in the demo trace. -/
def infDemoMid : InfiniteState := (stepInfinite infDemo (.visible 0)).1

theorem next_page_fetch_discipline_witness :
    (InfInv infDemo ∧
      infDemoMid ∈ traceStates infDemo [.visible 0, .visible 0] ∧
      infDemoMid.outstanding ≤ 1)
    ∧ (infDemoMid.isFetchingNextPage = true ∧
        stepInfinite infDemoMid (.visible 0) = (infDemoMid, 0)) :=
  ⟨⟨by simp [InfInv, infDemo], by decide,
      next_page_fetch_discipline.2.1 infDemo [.visible 0, .visible 0] infDemoMid
        (by simp [InfInv, infDemo]) (by decide)⟩,
    ⟨by decide,
      next_page_fetch_discipline.2.2 infDemoMid 0 (by decide)⟩⟩

/-- C6: on a failed next-page fetch the previously loaded window is
unchanged (nothing appended or removed), the error is surfaced, the
in-flight flag resets to false, the next page number and has-more flag are
unchanged, and a later visible-range notification near the end of the
window triggers the same next-page request again. -/
theorem fetch_failure_preserves_window :
    ∀ (s : InfiniteState) (msg : String), s.isFetchingNextPage = true →
      ((stepInfinite s (.fail msg)).1.window = s.window
      ∧ (stepInfinite s (.fail msg)).1.error = some msg
      ∧ (stepInfinite s (.fail msg)).1.isFetchingNextPage = false
      ∧ (stepInfinite s (.fail msg)).1.nextPage = s.nextPage
      ∧ (stepInfinite s (.fail msg)).1.hasNextPage = s.hasNextPage
      ∧ ∀ i : Nat, s.hasNextPage = true →
          (i : Int) ≥ (s.window.length : Int) - (PREFETCH_THRESHOLD : Int) →
          (stepInfinite (stepInfinite s (.fail msg)).1 (.visible i)).2 = 1) := by
  intro s msg h
  refine ⟨by simp [stepInfinite, h], by simp [stepInfinite, h],
    by simp [stepInfinite, h], by simp [stepInfinite, h],
    by simp [stepInfinite, h], ?_⟩
  intro i hmore hidx
  have hs2 : (stepInfinite s (.fail msg)).1 =
      { window := s.window, hasNextPage := s.hasNextPage, isFetchingNextPage := false
        nextPage := s.nextPage, outstanding := s.outstanding - 1, error := some msg } := by
    simp [stepInfinite, h]
  rw [hs2]
  simp [stepInfinite, shouldLoadMore, hmore, hidx]

/-- Demo in-flight state used by the C6 witness. -/
def infFailDemo : InfiniteState :=
  { window := [{ id := "d1", aircraft_registration := "OH-100"
                 defect_type := "t", description := "d", severity := "Low"
                 reported_at := "2025-01-01" }]
    hasNextPage := true, isFetchingNextPage := true
    nextPage := 2, outstanding := 1, error := none }

theorem fetch_failure_preserves_window_witness :
    infFailDemo.isFetchingNextPage = true ∧
      (stepInfinite infFailDemo (.fail "network")).1.window = infFailDemo.window :=
  ⟨by decide,
    (fetch_failure_preserves_window infFailDemo "network" (by decide)).1⟩

/-! ## Filter-keyed query cache (C2)

useDefects.js keys the infinite query by the whole filter object:

  queryKey: ['defects', filters]

so every fetch is tagged at issue time with the filter identity it was
issued under, and the external query cache (modelled here, following the
spec's §5 discipline: "tag each fetch with the filter identity ... and
compare at completion time") applies a completed fetch only to the cache
entry of its own key.  The window shown for the active filter is the cache
entry for that filter.  A fetch failure writes no rows anywhere. -/

/-- Completion events arriving on the event loop: a fetch issued under
filter `f` succeeds with a page of rows, or fails. -/
inductive CacheEvent where
  | complete (f : FilterState) (rows : List DefectReport)
  | failed (f : FilterState) (msg : String)
deriving DecidableEq

/-- The window accumulated for key `g` in the keyed cache. -/
def lookupCache (g : FilterState) :
    List (FilterState × List DefectReport) → List DefectReport
  | [] => []
  | (f, w) :: c => if f = g then w else lookupCache g c

/-- Append a delivered page to the cache entry of its own key. -/
def appendCache (f : FilterState) (rows : List DefectReport) :
    List (FilterState × List DefectReport) → List (FilterState × List DefectReport)
  | [] => [(f, rows)]
  | (g, w) :: c => if g = f then (g, w ++ rows) :: c else (g, w) :: appendCache f rows c

/-- Apply one completion event to the keyed cache: a success appends to
its own key's entry, a failure changes nothing. -/
def applyCacheEvent (c : List (FilterState × List DefectReport)) :
    CacheEvent → List (FilterState × List DefectReport)
  | .complete f rows => appendCache f rows c
  | .failed _ _ => c

/-- Run a sequence of completion events against the cache. -/
def runCache (c : List (FilterState × List DefectReport)) :
    List CacheEvent → List (FilterState × List DefectReport)
  | [] => c
  | e :: es => runCache (applyCacheEvent c e) es

/-- The rows delivered by fetches issued under filter `g`, in arrival
order. -/
def rowsDeliveredTo (g : FilterState) : List CacheEvent → List DefectReport
  | [] => []
  | .complete f rows :: es => (if f = g then rows else []) ++ rowsDeliveredTo g es
  | .failed _ _ :: es => rowsDeliveredTo g es

lemma lookup_appendCache (c : List (FilterState × List DefectReport))
    (f g : FilterState) (rows : List DefectReport) :
    lookupCache g (appendCache f rows c) =
      lookupCache g c ++ (if f = g then rows else []) := by
  induction c with
  | nil =>
      by_cases hfg : f = g <;> simp [appendCache, lookupCache, hfg]
  | cons p c ih =>
      obtain ⟨a, w⟩ := p
      by_cases haf : a = f
      · subst haf
        by_cases hag : a = g
        · subst hag
          simp [appendCache, lookupCache]
        · simp [appendCache, lookupCache, hag]
      · by_cases hag : a = g
        · subst hag
          have hfg : f ≠ a := fun hc => haf hc.symm
          simp [appendCache, lookupCache, haf, hfg]
        · simp [appendCache, lookupCache, haf, hag, ih]

lemma runCache_lookup (es : List CacheEvent)
    (c : List (FilterState × List DefectReport)) (g : FilterState) :
    lookupCache g (runCache c es) = lookupCache g c ++ rowsDeliveredTo g es := by
  induction es generalizing c with
  | nil => simp [runCache, rowsDeliveredTo]
  | cons e es ih =>
      cases e with
      | complete f rows =>
          simp [runCache, applyCacheEvent, rowsDeliveredTo, ih, lookup_appendCache,
            List.append_assoc]
      | failed f msg =>
          simp [runCache, applyCacheEvent, rowsDeliveredTo, ih]

/-- C2: the window for a filter consists exactly of the rows delivered by
fetches issued under that same filter, for every arrival order of
completions; a success of a fetch issued under a different (old) filter
leaves the window of the new filter untouched; and a failed stale fetch
changes nothing at all. -/
theorem filter_change_invalidates_stale_pages :
    (∀ (es : List CacheEvent) (g : FilterState),
        lookupCache g (runCache [] es) = rowsDeliveredTo g es)
    ∧ (∀ (c : List (FilterState × List DefectReport)) (f g : FilterState)
        (rows : List DefectReport), f ≠ g →
        lookupCache g (applyCacheEvent c (.complete f rows)) = lookupCache g c)
    ∧ (∀ (c : List (FilterState × List DefectReport)) (f : FilterState)
        (msg : String), applyCacheEvent c (.failed f msg) = c) := by
  refine ⟨?_, ?_, ?_⟩
  · intro es g
    rw [runCache_lookup]
    simp [lookupCache]
  · intro c f g rows hfg
    simp [applyCacheEvent, lookup_appendCache, hfg]
  · intro c f msg
    rfl

/-- Old filter (severity High) used by the C2 witness. -/
def filterDemoOld : FilterState := { aircraft_registration := "", severity := "High" }

/-- New filter (severity Low) used by the C2 witness. -/
def filterDemoNew : FilterState := { aircraft_registration := "", severity := "Low" }

theorem filter_change_invalidates_stale_pages_witness :
    filterDemoOld ≠ filterDemoNew ∧
      lookupCache filterDemoNew
        (applyCacheEvent [] (.complete filterDemoOld [infFailDemo.window.headD
          { id := "", aircraft_registration := "", defect_type := ""
            description := "", severity := "", reported_at := "" }])) =
        lookupCache filterDemoNew [] :=
  ⟨by decide,
    filter_change_invalidates_stale_pages.2.1 [] filterDemoOld filterDemoNew _ (by decide)⟩

/-! ## Page fetcher pagination math (C3)

fetchDefectsSupabase (Supabase API service):

  const offset = (page - 1) * page_size;
  query.order('reported_at', descending).range(offset, offset + page_size - 1)
  ... return the data rows, total: count, has_more: (offset + page_size) < count

The collaborator evaluates the equality filters and returns the inclusive
row range `[offset, offset + page_size - 1]` of the filtered, sorted result
plus its exact count; `db` below stands for the stored table in the
collaborator's sort order, so the filtered result list plays the role of
the query result.  The chunked analytics loop
(calculateAnalyticsFromSupabase) has no total and derives
`hasMore = data.length === pageSize` (inside `if (data && data.length > 0)`,
else false). -/

/-- Sample row used by concrete witnesses. -/
def sampleDefect : DefectReport :=
  { id := "def1", aircraft_registration := "OH-LWA", defect_type := "Hydraulic"
    description := "leak", severity := "High", reported_at := "2025-06-01" }

/-- The optional equality predicates of the query
(`if (aircraft_registration) query.eq(...)`, `if (severity) query.eq(...)`;
an empty string is falsy in JS, so it applies no predicate). -/
def matchesFilter (fs : FilterState) (d : DefectReport) : Bool :=
  decide ((fs.aircraft_registration = "" ∨
      d.aircraft_registration = fs.aircraft_registration)
    ∧ (fs.severity = "" ∨ d.severity = fs.severity))

/-- The filtered query result the collaborator paginates over. -/
def applyFilters (fs : FilterState) (db : List DefectReport) : List DefectReport :=
  db.filter (matchesFilter fs)

/-- Supabase `.range(lo, hi)`: the inclusive slice `[lo, hi]`. -/
def supaRange (db : List DefectReport) (lo hi : Nat) : List DefectReport :=
  (db.drop lo).take (hi + 1 - lo)

/-- Response shape of the defects fetchers:
`(data, total, page, page_size, has_more)`. -/
structure FetchResult where
  data : List DefectReport
  total : Nat
  page : Nat
  page_size : Nat
  has_more : Bool
deriving DecidableEq

/-- fetchDefectsSupabase embedded over the collaborator table `db`. -/
def fetchDefectsSupabase (db : List DefectReport) (fs : FilterState)
    (page page_size : Nat) : FetchResult :=
  let res := applyFilters fs db
  let offset := (page - 1) * page_size
  { data := supaRange res offset (offset + page_size - 1)
    total := res.length
    page := page
    page_size := page_size
    has_more := decide (offset + page_size < res.length) }

/-- End-of-data decision of the chunked analytics loop, which has no
explicit total: continue iff the chunk was nonempty and full. -/
def analyticsLoopHasMore (data : List DefectReport) (pageSize : Nat) : Bool :=
  if data.length > 0 then decide (data.length = pageSize) else false

lemma fetch_has_more_iff (db : List DefectReport) (fs : FilterState)
    (page psize : Nat) (h : 1 ≤ page) :
    (fetchDefectsSupabase db fs page psize).has_more = true ↔
      page * psize < (applyFilters fs db).length := by
  have hp : (page - 1) * psize + psize = page * psize := by
    have h1 : page - 1 + 1 = page := Nat.sub_add_cancel h
    calc (page - 1) * psize + psize = ((page - 1) + 1) * psize := by ring
      _ = page * psize := by rw [h1]
  simp only [fetchDefectsSupabase, decide_eq_true_eq]
  rw [hp]

lemma fetch_data_length (db : List DefectReport) (fs : FilterState)
    (page psize : Nat) (h : 0 < psize) :
    (fetchDefectsSupabase db fs page psize).data.length =
      min psize ((applyFilters fs db).length - (page - 1) * psize) := by
  simp only [fetchDefectsSupabase, supaRange, List.length_take, List.length_drop]
  congr 1
  generalize (page - 1) * psize = a
  omega

/-- C3: for page ≥ 1 and pageSize > 0, the fetcher's has_more equals
`offset + pageSize < total` (that is, page·pageSize < total) when the
collaborator returns the exact total, the returned row count is
min(pageSize, total − offset), the chunked analytics loop with no explicit
total continues exactly when the chunk length equals the page size, and
for pageSize = 50 with total 123, pages 1, 2, 3 return 50, 50, 23 rows
with has_more true, true, false. -/
theorem pagination_math :
    (∀ (db : List DefectReport) (fs : FilterState) (page psize : Nat),
        1 ≤ page →
        ((fetchDefectsSupabase db fs page psize).has_more = true ↔
          page * psize < (applyFilters fs db).length))
    ∧ (∀ (db : List DefectReport) (fs : FilterState) (page psize : Nat),
        0 < psize →
        (fetchDefectsSupabase db fs page psize).data.length =
          min psize ((applyFilters fs db).length - (page - 1) * psize))
    ∧ (∀ (chunk : List DefectReport) (psize : Nat), 0 < psize →
        (analyticsLoopHasMore chunk psize = true ↔ chunk.length = psize))
    ∧ (∀ (db : List DefectReport) (fs : FilterState),
        (applyFilters fs db).length = 123 →
        ((fetchDefectsSupabase db fs 1 50).data.length = 50
          ∧ (fetchDefectsSupabase db fs 1 50).has_more = true)
        ∧ ((fetchDefectsSupabase db fs 2 50).data.length = 50
          ∧ (fetchDefectsSupabase db fs 2 50).has_more = true)
        ∧ ((fetchDefectsSupabase db fs 3 50).data.length = 23
          ∧ (fetchDefectsSupabase db fs 3 50).has_more = false)) := by
  refine ⟨fetch_has_more_iff, fetch_data_length, ?_, ?_⟩
  · intro chunk psize hps
    unfold analyticsLoopHasMore
    split
    · simp
    · next hlen =>
        simp only [Bool.false_eq_true, false_iff]
        omega
  · intro db fs heq
    refine ⟨⟨?_, ?_⟩, ⟨?_, ?_⟩, ⟨?_, ?_⟩⟩
    · rw [fetch_data_length db fs 1 50 (by norm_num), heq]
      norm_num
    · rw [fetch_has_more_iff db fs 1 50 (by norm_num), heq]
      norm_num
    · rw [fetch_data_length db fs 2 50 (by norm_num), heq]
      norm_num
    · rw [fetch_has_more_iff db fs 2 50 (by norm_num), heq]
      norm_num
    · rw [fetch_data_length db fs 3 50 (by norm_num), heq]
      norm_num
    · have h3 := fetch_has_more_iff db fs 3 50 (by norm_num)
      rw [heq] at h3
      norm_num at h3
      exact h3

lemma applyFilters_none (l : List DefectReport) :
    applyFilters { aircraft_registration := "", severity := "" } l = l := by
  unfold applyFilters
  apply List.filter_eq_self.mpr
  intro a _
  simp [matchesFilter]

/-- Collaborator table with exactly 123 rows, used by the C3 witness. -/
def dbDemo123 : List DefectReport := List.replicate 123 sampleDefect

theorem pagination_math_witness :
    (applyFilters { aircraft_registration := "", severity := "" } dbDemo123).length = 123
    ∧ (fetchDefectsSupabase dbDemo123
        { aircraft_registration := "", severity := "" } 3 50).data.length = 23
    ∧ (fetchDefectsSupabase dbDemo123
        { aircraft_registration := "", severity := "" } 3 50).has_more = false := by
  have hlen : (applyFilters { aircraft_registration := "", severity := "" }
      dbDemo123).length = 123 := by
    rw [applyFilters_none]
    simp [dbDemo123]
  exact ⟨hlen, (pagination_math.2.2.2 dbDemo123 _ hlen).2.2.1,
    (pagination_math.2.2.2 dbDemo123 _ hlen).2.2.2⟩

/-! ## Search-text debounce (C4)

Two equivalent implementations exist in the repository: the useDebounce
hook (setTimeout on value change, clearTimeout in the effect cleanup —
also run on unmount) and the inline debounce helper in the
DefectFilters.jsx draft:

  function debounce(func, wait) {
    let timeout;
    return function (...args) {
      clearTimeout(timeout);
      timeout = setTimeout(() => { clearTimeout(timeout); func(...args); }, wait);
    };
  }

Embedded with virtual time: the state is the list of downstream calls
already fired and the pending timer (fire time and captured value).  A
keystroke first lets an already-due timer fire, then cancels-and-restarts
the timer; teardown cancels the pending timer, quiescence lets it fire. -/

/-- Debounce state: downstream calls fired so far (fire time and value)
and the pending timer, if any. -/
structure DebState where
  fired : List (Nat × String)
  pending : Option (Nat × String)
deriving DecidableEq

/-- Fresh debouncer: nothing fired, no timer pending. -/
def initDebounce : DebState := { fired := [], pending := none }

/-- Let the pending timer fire if its fire time has been reached. -/
def fireDue (st : DebState) (now : Nat) : DebState :=
  match st.pending with
  | some (ft, v) =>
      if ft ≤ now then { fired := st.fired ++ [(ft, v)], pending := none } else st
  | none => st

/-- A keystroke at time `t` with new value `v`: any timer already due has
fired on the event loop; an undue one is cancelled (clearTimeout) and a
fresh timer for `t + delay` is started with the new value. -/
def keystroke (delay : Nat) (st : DebState) (t : Nat) (v : String) : DebState :=
  let st2 := fireDue st t
  { fired := st2.fired, pending := some (t + delay, v) }

/-- Feed a time-ordered list of keystrokes to the debouncer. -/
def runKeys (delay : Nat) (st : DebState) : List (Nat × String) → DebState
  | [] => st
  | (t, v) :: ks => runKeys delay (keystroke delay st t v) ks

/-- Let the input quiesce: the pending timer, if any, fires. -/
def flushDebounce (st : DebState) : List (Nat × String) :=
  match st.pending with
  | some (ft, v) => st.fired ++ [(ft, v)]
  | none => st.fired

/-- Teardown (unmount): the cleanup clears the pending timer, so only the
calls already fired remain. -/
def teardownDebounce (st : DebState) : List (Nat × String) := st.fired

/-- Keystrokes following time `t` that are strictly later but arrive
before the quiet period elapses (gap < delay), recursively. -/
def rapidFrom (delay t : Nat) : List (Nat × String) → Bool
  | [] => true
  | (u, _) :: ks => (decide (t < u) && decide (u < t + delay)) && rapidFrom delay u ks

lemma runKeys_rapid (delay : Nat) (ks : List (Nat × String)) :
    ∀ (t : Nat) (v : String) (st : DebState), st.fired = [] →
      st.pending = some (t + delay, v) → rapidFrom delay t ks = true →
      (runKeys delay st ks).fired = [] ∧
        (runKeys delay st ks).pending =
          some ((ks.getLastD (t, v)).1 + delay, (ks.getLastD (t, v)).2) := by
  induction ks with
  | nil =>
      intro t v st hf hp _
      simp [runKeys, List.getLastD, hf, hp]
  | cons p ks ih =>
      obtain ⟨u, w⟩ := p
      intro t v st hf hp hr
      simp only [rapidFrom, Bool.and_eq_true, decide_eq_true_eq] at hr
      obtain ⟨⟨htu, hud⟩, hr⟩ := hr
      have hks : keystroke delay st u w =
          { fired := [], pending := some (u + delay, w) } := by
        simp [keystroke, fireDue, hp, hf, Nat.not_le.mpr hud]
      have hrec := ih u w (keystroke delay st u w) (by rw [hks]) (by rw [hks]) hr
      have hstep : runKeys delay st ((u, w) :: ks) =
          runKeys delay (keystroke delay st u w) ks := rfl
      rw [hstep, List.getLastD_cons]
      exact hrec

/-- C4: for every rapid typing burst (each keystroke strictly later than,
but within the 300ms quiet period of, the previous one) fed to a fresh
debouncer, no downstream call fires during the burst; if the input then
quiesces exactly one call fires, carrying the final value; and teardown
while the timer is pending cancels it, so no call fires at all. -/
theorem debounce_single_call (ks : List (Nat × String)) (t : Nat) (v : String)
    (h : rapidFrom DEBOUNCE_DELAY t ks = true) :
    (runKeys DEBOUNCE_DELAY initDebounce ((t, v) :: ks)).fired = []
    ∧ flushDebounce (runKeys DEBOUNCE_DELAY initDebounce ((t, v) :: ks)) =
        [((ks.getLastD (t, v)).1 + DEBOUNCE_DELAY, (ks.getLastD (t, v)).2)]
    ∧ teardownDebounce (runKeys DEBOUNCE_DELAY initDebounce ((t, v) :: ks)) = [] := by
  have hks : keystroke DEBOUNCE_DELAY initDebounce t v =
      { fired := [], pending := some (t + DEBOUNCE_DELAY, v) } := by
    simp [keystroke, fireDue, initDebounce]
  have hrun : runKeys DEBOUNCE_DELAY initDebounce ((t, v) :: ks) =
      runKeys DEBOUNCE_DELAY (keystroke DEBOUNCE_DELAY initDebounce t v) ks := rfl
  have hmain := runKeys_rapid DEBOUNCE_DELAY ks t v
    (keystroke DEBOUNCE_DELAY initDebounce t v) (by rw [hks]) (by rw [hks]) h
  rw [hrun]
  refine ⟨hmain.1, ?_, hmain.1⟩
  simp [flushDebounce, hmain.1, hmain.2]

theorem debounce_single_call_witness :
    rapidFrom DEBOUNCE_DELAY 0 [(100, "OH-12"), (200, "OH-123")] = true ∧
      flushDebounce (runKeys DEBOUNCE_DELAY initDebounce
        [(0, "OH-1"), (100, "OH-12"), (200, "OH-123")]) = [(500, "OH-123")] :=
  ⟨by decide,
    (debounce_single_call [(100, "OH-12"), (200, "OH-123")] 0 "OH-1" (by decide)).2.1⟩

/-! ## Row expansion and layout (C5, C10)

VirtualizedDefectTable.jsx keeps `expandedRows` as a Set of row ids,
separate from the `defects` window:

  toggleExpanded(id): copy the set; delete id if present, else add it.
  getItemSize(index): ROW_HEIGHT unless the defect at `index` exists and
  its id is in expandedRows, in which case ROW_HEIGHT + 140.

A JS Set of strings is embedded as `Finset String`.  Row layout offsets in
the virtual list are the running sums of item sizes. -/

/-- toggleExpanded from VirtualizedDefectTable.jsx. -/
def toggleExpanded (expandedRows : Finset String) (defectId : String) : Finset String :=
  if defectId ∈ expandedRows then expandedRows.erase defectId
  else insert defectId expandedRows

/-- getItemSize from VirtualizedDefectTable.jsx. -/
def getItemSize (defects : List DefectReport) (expandedRows : Finset String)
    (index : Nat) : Nat :=
  match defects[index]? with
  | none => ROW_HEIGHT
  | some d => if d.id ∈ expandedRows then ROW_HEIGHT + EXPANDED_DELTA else ROW_HEIGHT

/-- Layout offset of row `i`: sum of the sizes of the rows before it. -/
def offsetOf (defects : List DefectReport) (expandedRows : Finset String)
    (i : Nat) : Nat :=
  ((List.range i).map (getItemSize defects expandedRows)).sum

/-- The row id found at window position `j`, if any. -/
def idAt (defects : List DefectReport) (j : Nat) : Option String :=
  (defects[j]?).map (fun d => d.id)

lemma idAt_eq_map_getElem (defects : List DefectReport) (j : Nat) :
    idAt defects j = (defects.map (fun d => d.id))[j]? := by
  simp [idAt]

lemma getItemSize_insert (defects : List DefectReport) (er : Finset String)
    (x : String) (hx : x ∉ er) (j : Nat) :
    getItemSize defects (insert x er) j =
      getItemSize defects er j +
        (if idAt defects j = some x then EXPANDED_DELTA else 0) := by
  cases h : defects[j]? with
  | none => simp [getItemSize, idAt, h]
  | some d =>
      by_cases hid : d.id = x
      · subst hid
        simp [getItemSize, idAt, h, hx, Finset.mem_insert]
      · have : (d.id ∈ insert x er) = (d.id ∈ er) := by
          simp [Finset.mem_insert, hid]
        simp [getItemSize, idAt, h, this, hid]

lemma offsetOf_succ (defects : List DefectReport) (er : Finset String) (i : Nat) :
    offsetOf defects er (i + 1) = offsetOf defects er i + getItemSize defects er i := by
  simp [offsetOf, List.range_succ]

lemma offsetOf_insert_no_hit (defects : List DefectReport) (er : Finset String)
    (x : String) (hx : x ∉ er) (i : Nat)
    (hno : ∀ j, j < i → idAt defects j ≠ some x) :
    offsetOf defects (insert x er) i = offsetOf defects er i := by
  induction i with
  | zero => simp [offsetOf]
  | succ i ih =>
      rw [offsetOf_succ, offsetOf_succ,
        ih (fun j hj => hno j (Nat.lt_succ_of_lt hj)),
        getItemSize_insert defects er x hx i, if_neg (hno i (Nat.lt_succ_self i))]
      ring

lemma nodup_idAt_unique (defects : List DefectReport)
    (hnd : (defects.map (fun d => d.id)).Nodup) (x : String) (k j : Nat)
    (hk : idAt defects k = some x) (hj : idAt defects j = some x) : k = j := by
  rw [idAt_eq_map_getElem] at hk hj
  have hklen : k < (defects.map (fun d => d.id)).length :=
    List.getElem?_eq_some_iff.mp hk |>.1
  exact List.getElem?_inj hklen hnd (hk.trans hj.symm)

lemma offsetOf_insert_hit (defects : List DefectReport) (er : Finset String)
    (x : String) (hx : x ∉ er)
    (hnd : (defects.map (fun d => d.id)).Nodup) (k : Nat)
    (hk : idAt defects k = some x) :
    ∀ i, k < i →
      offsetOf defects (insert x er) i = offsetOf defects er i + EXPANDED_DELTA := by
  intro i
  induction i with
  | zero => intro h; exact absurd h (Nat.not_lt_zero k)
  | succ i ih =>
      intro hki
      rw [offsetOf_succ, offsetOf_succ, getItemSize_insert defects er x hx i]
      rcases Nat.lt_or_ge k i with hlt | hge
      · have hne : idAt defects i ≠ some x := by
          intro hcon
          exact absurd (nodup_idAt_unique defects hnd x k i hk hcon) (Nat.ne_of_lt hlt)
        rw [ih hlt, if_neg hne]
        ring
      · have hki2 : k = i := Nat.le_antisymm (Nat.lt_succ_iff.mp hki) hge
        subst hki2
        have hno : ∀ j, j < k → idAt defects j ≠ some x := by
          intro j hj hcon
          exact absurd (nodup_idAt_unique defects hnd x k j hk hcon)
            (Nat.ne_of_gt hj)
        rw [offsetOf_insert_no_hit defects er x hx k hno, if_pos hk]
        ring

/-- C5: expansion is keyed by row id, not index — appending a page leaves
the size of every existing row position unchanged (the expansion set is
not consulted by index and is untouched by window growth); the layout
height of a row is the collapsed height unless its id is expanded, in
which case it is the collapsed height plus the fixed detail-panel delta;
and expanding a row shifts the layout offset of every later row by exactly
that delta (given ids are unique in the window). -/
theorem expansion_keyed_by_id :
    (∀ (defects page : List DefectReport) (er : Finset String) (i : Nat),
        i < defects.length →
        getItemSize (defects ++ page) er i = getItemSize defects er i)
    ∧ (∀ (defects : List DefectReport) (er : Finset String) (i : Nat)
        (d : DefectReport), defects[i]? = some d →
        getItemSize defects er i =
          if d.id ∈ er then ROW_HEIGHT + EXPANDED_DELTA else ROW_HEIGHT)
    ∧ (∀ (defects : List DefectReport) (er : Finset String) (x : String)
        (k i : Nat), x ∉ er → (defects.map (fun d => d.id)).Nodup →
        idAt defects k = some x → k < i →
        offsetOf defects (insert x er) i = offsetOf defects er i + EXPANDED_DELTA) := by
  refine ⟨?_, ?_, ?_⟩
  · intro defects page er i hi
    unfold getItemSize
    rw [List.getElem?_append_left hi]
  · intro defects er i d hd
    unfold getItemSize
    rw [hd]
  · intro defects er x k i hx hnd hk hki
    exact offsetOf_insert_hit defects er x hx hnd k hk i hki

/-- Two-row demo window used by the C5 witness. -/
def defectsDemo : List DefectReport :=
  [{ id := "def123", aircraft_registration := "OH-100", defect_type := "a"
     description := "p", severity := "Low", reported_at := "2025-01-01" },
   { id := "def456", aircraft_registration := "OH-200", defect_type := "b"
     description := "q", severity := "High", reported_at := "2025-01-02" }]

theorem expansion_keyed_by_id_witness :
    ("def456" ∉ (∅ : Finset String)
      ∧ (defectsDemo.map (fun d => d.id)).Nodup
      ∧ idAt defectsDemo 1 = some "def456")
    ∧ offsetOf defectsDemo (insert "def456" (∅ : Finset String)) 2 =
        offsetOf defectsDemo (∅ : Finset String) 2 + EXPANDED_DELTA :=
  ⟨⟨by decide, by decide, by decide⟩,
    expansion_keyed_by_id.2.2 defectsDemo ∅ "def456" 1 2
      (by decide) (by decide) (by decide) (by decide)⟩

/-- C10: toggleExpanded is an involution that changes only its argument:
toggling the same id twice restores the set, a single toggle flips the
membership of the toggled id, and the membership of every other id is
unchanged. -/
theorem toggleExpanded_involution :
    ∀ (s : Finset String) (x : String),
      toggleExpanded (toggleExpanded s x) x = s
      ∧ ((x ∈ toggleExpanded s x) ↔ x ∉ s)
      ∧ ∀ y : String, y ≠ x → ((y ∈ toggleExpanded s x) ↔ y ∈ s) := by
  intro s x
  by_cases h : x ∈ s
  · have h1 : toggleExpanded s x = s.erase x := if_pos h
    refine ⟨?_, ?_, ?_⟩
    · rw [h1]
      have h2 : toggleExpanded (s.erase x) x = insert x (s.erase x) :=
        if_neg (Finset.not_mem_erase x s)
      rw [h2]
      exact Finset.insert_erase h
    · rw [h1]
      simp [Finset.not_mem_erase, h]
    · intro y hy
      rw [h1]
      simp [Finset.mem_erase, hy]
  · have h1 : toggleExpanded s x = insert x s := if_neg h
    refine ⟨?_, ?_, ?_⟩
    · rw [h1]
      have h2 : toggleExpanded (insert x s) x = (insert x s).erase x :=
        if_pos (Finset.mem_insert_self x s)
      rw [h2]
      exact Finset.erase_insert h
    · rw [h1]
      simp [Finset.mem_insert, h]
    · intro y hy
      rw [h1]
      simp [Finset.mem_insert, hy]

theorem toggleExpanded_involution_witness :
    ("def123" ≠ "def456") ∧
      (("def123" ∈ toggleExpanded {"def123"} "def456") ↔
        "def123" ∈ ({"def123"} : Finset String)) :=
  ⟨by decide,
    (toggleExpanded_involution {"def123"} "def456").2.2 "def123" (by decide)⟩

/-! ## Date rendering (C7)

Four date-rendering implementations exist in the repository:

* utils/date.js formatDisplayDate / formatTooltipDate: guard with
  date-fns isValid, return "" for an invalid date;
* VirtualizedDefectTable.jsx local formatDisplayDate / formatTooltipDate:
  identical guards, also returning "";
* DefectRow.jsx local formatters: guard with isValid, return the
  placeholder string "Invalid Date";
* the draft DefectTable's inline DefectRow (date cell):
  `format(new Date(defect.reported_at), 'MMM dd, yyyy')` with NO isValid
  guard — date-fns `format` throws `RangeError: Invalid time value` on an
  invalid date (its tooltip uses toLocaleString, which instead yields the
  string "Invalid Date" without throwing).

The host Date library is modelled as an abstract parse-and-format record;
only whether parsing succeeds matters to the viewer code. -/

/-- Abstract model of the host date library: parsing a string to an
instant (`none` exactly when the string does not parse to a valid
instant), and the two formatters applied to valid instants. -/
structure DateLib where
  parse : String → Option Int
  fmtDisplay : Int → String
  fmtLocale : Int → String

/-- formatDisplayDate of utils/date.js (and the identical local copy in
VirtualizedDefectTable.jsx): empty string on an invalid date. -/
def formatDisplayDate (lib : DateLib) (s : String) : String :=
  match lib.parse s with
  | some t => lib.fmtDisplay t
  | none => ""

/-- formatTooltipDate of utils/date.js (and the identical local copy in
VirtualizedDefectTable.jsx): empty string on an invalid date. -/
def formatTooltipDate (lib : DateLib) (s : String) : String :=
  match lib.parse s with
  | some t => lib.fmtLocale t
  | none => ""

/-- formatDisplayDate local to DefectRow.jsx: placeholder string on an
invalid date. -/
def rowFormatDisplayDate (lib : DateLib) (s : String) : String :=
  match lib.parse s with
  | some t => lib.fmtDisplay t
  | none => "Invalid Date"

/-- formatTooltipDate local to DefectRow.jsx: placeholder string on an
invalid date. -/
def rowFormatTooltipDate (lib : DateLib) (s : String) : String :=
  match lib.parse s with
  | some t => lib.fmtLocale t
  | none => "Invalid Date"

/-- The date cell of the draft DefectTable's inline DefectRow:
date-fns format with no isValid guard, so an unparseable reported_at
raises RangeError (embedded as Except.error). -/
def draftRowDateCell (lib : DateLib) (s : String) : Except String String :=
  match lib.parse s with
  | some t => Except.ok (lib.fmtDisplay t)
  | none => Except.error "RangeError: Invalid time value"

/-- The tooltip of the same draft row: toLocaleString on an invalid Date
yields the string "Invalid Date" without throwing. -/
def draftRowTooltip (lib : DateLib) (s : String) : String :=
  match lib.parse s with
  | some t => lib.fmtLocale t
  | none => "Invalid Date"

/-- Decimal digit test for the concrete date-parser model. -/
def isDigitChar (c : Char) : Bool := decide ('0' ≤ c) && decide (c ≤ '9')

/-- Digit value for the concrete date-parser model. -/
def digitVal (c : Char) : Nat := c.toNat - '0'.toNat

/-- Minimal executable model of the host Date parser: accepts exactly
calendar dates written YYYY-MM-DD with a month in 1..12 and a day in
1..31, mapping them to a monotone encoding.  The viewer code depends only
on whether parsing succeeds, so any such model exercises every branch. -/
def jsDateParse (s : String) : Option Int :=
  match s.toList with
  | [y1, y2, y3, y4, h1, m1, m2, h2, d1, d2] =>
      if isDigitChar y1 && isDigitChar y2 && isDigitChar y3 && isDigitChar y4
          && decide (h1 = '-') && isDigitChar m1 && isDigitChar m2
          && decide (h2 = '-') && isDigitChar d1 && isDigitChar d2 then
        let mo := 10 * digitVal m1 + digitVal m2
        let dy := 10 * digitVal d1 + digitVal d2
        if 1 ≤ mo ∧ mo ≤ 12 ∧ 1 ≤ dy ∧ dy ≤ 31 then
          some (((1000 * digitVal y1 + 100 * digitVal y2 + 10 * digitVal y3
            + digitVal y4) * 10000 + mo * 100 + dy : Nat) : Int)
        else none
      else none
  | _ => none

/-- Concrete date library instance used by the C7 witness. -/
def jsDateModel : DateLib :=
  { parse := jsDateParse
    fmtDisplay := fun t => toString t
    fmtLocale := fun t => toString t }

/-- C7: for every reportedAt value that does not parse to a valid
instant, the guarded renderers (utils/date.js, VirtualizedDefectTable,
DefectRow.jsx) return the empty string or the "Invalid Date" placeholder
without throwing — but the draft DefectTable's inline row date cell calls
date-fns format unguarded and throws RangeError, contradicting the claim
that every date-rendering operation degrades gracefully. -/
theorem unparseable_date_rendering (lib : DateLib) (s : String)
    (h : lib.parse s = none) :
    formatDisplayDate lib s = ""
    ∧ formatTooltipDate lib s = ""
    ∧ rowFormatDisplayDate lib s = "Invalid Date"
    ∧ rowFormatTooltipDate lib s = "Invalid Date"
    ∧ draftRowTooltip lib s = "Invalid Date"
    ∧ draftRowDateCell lib s = Except.error "RangeError: Invalid time value" := by
  refine ⟨?_, ?_, ?_, ?_, ?_, ?_⟩ <;>
    simp [formatDisplayDate, formatTooltipDate, rowFormatDisplayDate,
      rowFormatTooltipDate, draftRowTooltip, draftRowDateCell, h]

theorem unparseable_date_rendering_witness :
    jsDateModel.parse "not-a-date" = none ∧
      draftRowDateCell jsDateModel "not-a-date" =
        Except.error "RangeError: Invalid time value" :=
  ⟨by decide,
    (unparseable_date_rendering jsDateModel "not-a-date" (by decide)).2.2.2.2.2⟩

/-! ## Aircraft typeahead search (C8)

searchAircraftSupabase:

  supabase.from('defects').select('aircraft_registration')
    .ilike('aircraft_registration', `%term%`).limit(100)
  then: unique = [...new Set(rows)]; return unique.sort().slice(0, 50)

The ilike substring predicate (Postgres, case-insensitive; the term is
used literally) is embedded as a case-insensitive substring test; the
limit keeps at most the first 100 matching rows; the JS Set spread
dedupes keeping first occurrences; Array.sort orders lexicographically by
code units; slice keeps at most 50. -/

/-- Whether the needle list is an initial segment of the hay list. -/
def charsStartWith : List Char → List Char → Bool
  | [], _ => true
  | _ :: _, [] => false
  | a :: as, b :: bs => decide (a = b) && charsStartWith as bs

/-- Whether the needle occurs contiguously anywhere in the hay. -/
def charsContain (hay needle : List Char) : Bool :=
  match hay with
  | [] => needle.isEmpty
  | _ :: t => charsStartWith needle hay || charsContain t needle

/-- Lowercasing of a character list (String.toLower maps Char.toLower
over the characters; done on the list so it evaluates by reduction). -/
def lowerChars (cs : List Char) : List Char := cs.map Char.toLower

/-- Case-insensitive substring match: the ilike `%term%` predicate. -/
def matchesCI (term s : String) : Bool :=
  charsContain (lowerChars s.toList) (lowerChars term.toList)

/-- Code-unit lexicographic order on strings (Array.prototype.sort). -/
def charsLe : List Char → List Char → Bool
  | [], _ => true
  | _ :: _, [] => false
  | a :: as, b :: bs => if a = b then charsLe as bs else decide (a < b)

/-- Insert into a sorted list (helper of the sort model). -/
def insertSorted (x : String) : List String → List String
  | [] => [x]
  | y :: ys => if charsLe x.toList y.toList then x :: y :: ys else y :: insertSorted x ys

/-- Sorting model for Array.prototype.sort (insertion sort). -/
def sortStrings : List String → List String
  | [] => []
  | x :: xs => insertSorted x (sortStrings xs)

/-- First-occurrence deduplication: the JS `[...new Set(xs)]` idiom. -/
def dedupSeen (seen : List String) : List String → List String
  | [] => []
  | a :: l => if a ∈ seen then dedupSeen seen l else a :: dedupSeen (a :: seen) l

/-- searchAircraftSupabase embedded over the stored registrations `db`
(one entry per defect row, in collaborator order). -/
def searchAircraftSupabase (db : List String) (term : String) : List String :=
  (sortStrings (dedupSeen [] ((db.filter (fun r => matchesCI term r)).take 100))).take 50

lemma mem_dedupSeen (l : List String) :
    ∀ (seen : List String) (x : String), x ∈ dedupSeen seen l → x ∈ l ∧ x ∉ seen := by
  induction l with
  | nil => intro seen x hx; simp [dedupSeen] at hx
  | cons a l ih =>
      intro seen x hx
      unfold dedupSeen at hx
      split at hx
      · have := ih seen x hx
        exact ⟨List.mem_cons_of_mem a this.1, this.2⟩
      · rcases List.mem_cons.mp hx with rfl | hx2
        · next hns => exact ⟨List.mem_cons_self x l, hns⟩
        · have := ih (a :: seen) x hx2
          refine ⟨List.mem_cons_of_mem a this.1, ?_⟩
          intro hcon
          exact this.2 (List.mem_cons_of_mem a hcon)

lemma nodup_dedupSeen (l : List String) :
    ∀ seen : List String, (dedupSeen seen l).Nodup := by
  induction l with
  | nil => intro seen; simp [dedupSeen]
  | cons a l ih =>
      intro seen
      unfold dedupSeen
      split
      · exact ih seen
      · refine List.nodup_cons.mpr ⟨?_, ih (a :: seen)⟩
        intro hcon
        exact (mem_dedupSeen l (a :: seen) a hcon).2 (List.mem_cons_self a seen)

lemma insertSorted_perm (x : String) (l : List String) :
    List.Perm (insertSorted x l) (x :: l) := by
  induction l with
  | nil => exact List.Perm.refl _
  | cons y ys ih =>
      unfold insertSorted
      split
      · exact List.Perm.refl _
      · exact (ih.cons y).trans (List.Perm.swap x y ys)

lemma sortStrings_perm (l : List String) : List.Perm (sortStrings l) l := by
  induction l with
  | nil => exact List.Perm.refl _
  | cons x xs ih =>
      have h1 : List.Perm (sortStrings (x :: xs)) (x :: sortStrings xs) :=
        insertSorted_perm x (sortStrings xs)
      exact h1.trans (ih.cons x)

/-- C8: for every search term the typeahead result has at most 50
entries, contains no duplicates, and every returned registration matches
the term as a case-insensitive substring. -/
theorem aircraft_search_bounded_distinct_matching :
    ∀ (db : List String) (term : String),
      (searchAircraftSupabase db term).length ≤ 50
      ∧ (searchAircraftSupabase db term).Nodup
      ∧ ∀ x ∈ searchAircraftSupabase db term, matchesCI term x = true := by
  intro db term
  refine ⟨List.length_take_le 50 _, ?_, ?_⟩
  · apply List.Nodup.sublist (List.take_sublist 50 _)
    exact ((sortStrings_perm _).nodup_iff).mpr (nodup_dedupSeen _ [])
  · intro x hx
    have hx1 : x ∈ sortStrings (dedupSeen []
        ((db.filter (fun r => matchesCI term r)).take 100)) :=
      List.mem_of_mem_take hx
    have hx2 : x ∈ dedupSeen [] ((db.filter (fun r => matchesCI term r)).take 100) :=
      (sortStrings_perm _).mem_iff.mp hx1
    have hx3 : x ∈ (db.filter (fun r => matchesCI term r)).take 100 :=
      (mem_dedupSeen _ [] x hx2).1
    have hx4 : x ∈ db.filter (fun r => matchesCI term r) :=
      List.mem_of_mem_take hx3
    exact (List.mem_filter.mp hx4).2

/-- Registrations table used by the C8 witness. -/
def dbSearchDemo : List String := ["OH-LWA", "oh-lwb", "AB-123", "OH-LWA"]

theorem aircraft_search_bounded_distinct_matching_witness :
    "OH-LWA" ∈ searchAircraftSupabase dbSearchDemo "oh" ∧
      matchesCI "oh" "OH-LWA" = true :=
  ⟨by decide,
    (aircraft_search_bounded_distinct_matching dbSearchDemo "oh").2.2 "OH-LWA" (by decide)⟩

/-! ## getNextPageParam refinement (C9)

useDefects.js:                (lastPage) => lastPage.has_more ? lastPage.page + 1 : undefined
draft hook (dataService one): (lastPage, pages) => !lastPage.has_more ? undefined : pages.length + 1 -/

/-- getNextPageParam of the shipped useDefects hook. -/
def getNextPageParamLast (lastPage : FetchResult) : Option Nat :=
  if lastPage.has_more then some (lastPage.page + 1) else none

/-- getNextPageParam of the draft hook variant. -/
def getNextPageParamCount (lastPage : FetchResult) (pages : List FetchResult) :
    Option Nat :=
  if !lastPage.has_more then none else some (pages.length + 1)

/-- C9: when the accumulated pages are pages 1..n in order (page number =
position + 1) and lastPage is the final element, the two getNextPageParam
variants agree, and each returns undefined exactly when has_more is
false. -/
theorem getNextPageParam_equiv (pages : List FetchResult) (lastPage : FetchResult)
    (hlast : pages.getLast? = some lastPage)
    (hord : ∀ (i : Nat) (p : FetchResult), pages[i]? = some p → p.page = i + 1) :
    getNextPageParamLast lastPage = getNextPageParamCount lastPage pages
    ∧ (getNextPageParamLast lastPage = none ↔ lastPage.has_more = false)
    ∧ (getNextPageParamCount lastPage pages = none ↔ lastPage.has_more = false) := by
  have hidx : pages[pages.length - 1]? = some lastPage := by
    rw [← List.getLast?_eq_getElem?]
    exact hlast
  have hlen : 0 < pages.length := by
    rcases Nat.eq_zero_or_pos pages.length with hz | hp
    · rw [List.length_eq_zero] at hz
      rw [hz] at hlast
      simp at hlast
    · exact hp
  have hpage : lastPage.page = pages.length := by
    have := hord (pages.length - 1) lastPage hidx
    omega
  unfold getNextPageParamLast getNextPageParamCount
  cases hm : lastPage.has_more <;> simp [hm, hpage]

/-- Accumulated pages 1..2 used by the C9 witness. -/
def demoPage1 : FetchResult :=
  { data := [], total := 123, page := 1, page_size := 50, has_more := true }

/-- Second accumulated page used by the C9 witness. -/
def demoPage2 : FetchResult :=
  { data := [], total := 123, page := 2, page_size := 50, has_more := true }

/-- The demo page list for the C9 witness. -/
def demoPages : List FetchResult := [demoPage1, demoPage2]

theorem getNextPageParam_equiv_witness :
    demoPages.getLast? = some demoPage2 ∧
      getNextPageParamLast demoPage2 = getNextPageParamCount demoPage2 demoPages := by
  have hord : ∀ (i : Nat) (p : FetchResult), demoPages[i]? = some p → p.page = i + 1 := by
    intro i p h
    match i with
    | 0 =>
        simp only [demoPages, List.getElem?_cons_zero, Option.some.injEq] at h
        rw [← h]
        decide
    | 1 =>
        simp only [demoPages, List.getElem?_cons_succ, List.getElem?_cons_zero,
          Option.some.injEq] at h
        rw [← h]
        decide
    | n + 2 =>
        simp [demoPages] at h
  exact ⟨by decide,
    (getNextPageParam_equiv demoPages demoPage2 (by decide) hord).1⟩

end DefectViewer
